import Mathlib

/-!
Verification of the resilient-routing decision-support system core:
the `RouteOptimizer` greedy baseline and constraint-search strategy
(src/optimization.py) and the `LogisticsSimulator` / `WeatherService`
(src/simulation.py), shallowly embedded in Lean 4.

Integer quantities of the optimizer are modelled as `Int`; the simulator's
floating-point arithmetic is modelled over `ℚ`.
-/

namespace RRDSS

/-- The `data_model` dictionary consumed by `RouteOptimizer` (src/optimization.py):
travel-time matrix in integer minutes, per-node time windows and demands, the
depot index, per-vehicle capacities, the per-stop service duration and the shift
horizon.  Optional dictionary keys (`service_time`, `max_time_minutes`) are
modelled with their defaults already resolved into the field. -/
structure DataModel where
  time_matrix : List (List Int)
  time_windows : List (Int × Int)
  demands : List Int
  vehicle_capacities : List Int
  num_vehicles : Nat
  depot : Nat
  service_time : Int
  max_time_minutes : Int

/-- `data['time_matrix'][i][j]` (indices in range in every use). -/
def mat (d : DataModel) (i j : Nat) : Int := (d.time_matrix.getD i []).getD j 0

/-- `data['demands'][i]`. -/
def dem (d : DataModel) (i : Nat) : Int := d.demands.getD i 0

/-- `data['vehicle_capacities'][0]`, the capacity `solve_greedy` uses for every
route (optimization.py line 141). -/
def capacity0 (d : DataModel) : Int := d.vehicle_capacities.getD 0 0

/-- `data['time_windows'][i]`. -/
def windowOf (d : DataModel) (i : Nat) : Int × Int := d.time_windows.getD i (0, 0)

/-- Eligibility test of `solve_greedy` (optimization.py lines 153-159): the
candidate fits the remaining capacity, and travelling to it, serving it for the
configured `service_time` and returning to the depot stays within the shift
horizon. -/
def eligible (d : DataModel) (load t : Int) (cur c : Nat) : Prop :=
  load + dem d c ≤ capacity0 d ∧
    t + mat d cur c + d.service_time + mat d c d.depot ≤ d.max_time_minutes

instance (d : DataModel) (load t : Int) (cur c : Nat) : Decidable (eligible d load t cur c) := by
  unfold eligible; infer_instance

/-- The candidate scan of `solve_greedy` (optimization.py lines 143-163):
iterate over the unvisited nodes, skip the ineligible ones, and keep the
strictly nearest candidate seen so far (`if dist_to < min_dist`), so the first
eligible node attaining the minimum distance is retained. -/
def findNearestAux (d : DataModel) (load t : Int) (cur : Nat) :
    List Nat → Option (Nat × Int) → Option (Nat × Int)
  | [], acc => acc
  | c :: cs, acc =>
    if eligible d load t cur c then
      match acc with
      | none => findNearestAux d load t cur cs (some (c, mat d cur c))
      | some (n, md) =>
        if mat d cur c < md then findNearestAux d load t cur cs (some (c, mat d cur c))
        else findNearestAux d load t cur cs (some (n, md))
    else findNearestAux d load t cur cs acc

/-- Inner `while True` loop of `solve_greedy` (optimization.py lines 143-173):
repeatedly pick the nearest eligible unvisited node, append it to the route,
remove it from the unvisited list, add its demand to the load, and advance the
clock by the travel time plus the literal constant 10
(`current_time += min_dist + 10`).  Returns the route, the remaining unvisited
list, the final load and the final clock.  Fuel bounds the recursion;
`uv.length` steps always suffice because each accepted node is removed. -/
def buildRoute (d : DataModel) :
    Nat → List Nat → List Nat → Int → Int → Nat → List Nat × List Nat × Int × Int
  | 0, uv, r, load, t, _ => (r, uv, load, t)
  | fuel + 1, uv, r, load, t, cur =>
    match findNearestAux d load t cur uv none with
    | none => (r, uv, load, t)
    | some (c, md) =>
      buildRoute d fuel (uv.erase c) (r ++ [c]) (load + dem d c) (t + md + 10) c

/-- Outer `while unvisited` loop of `solve_greedy` (optimization.py lines
136-177), with fuel: each iteration opens a fresh vehicle (load 0, time 0, at
the depot), builds one route and appends it.  `none` means the fuel was
exhausted with unvisited nodes remaining, i.e. the Python loop has not
terminated within that many iterations. -/
def solveGreedyAux (d : DataModel) : Nat → List Nat → List (List Nat) → Option (List (List Nat))
  | 0, uv, routes => if uv = [] then some routes else none
  | fuel + 1, uv, routes =>
    if uv = [] then some routes
    else
      match buildRoute d uv.length uv [] 0 0 d.depot with
      | (r, uv', _, _) => solveGreedyAux d fuel uv' (routes ++ [r])

/-- `RouteOptimizer.solve_greedy` (optimization.py lines 127-177).  The Python
`set(range(1, len(time_matrix)))` of customer indices is modelled as the
increasing list `List.range' 1 (N - 1)`, matching CPython's iteration order for
a set of small consecutive ints.  `fuel` bounds the number of outer-loop
iterations (vehicles opened). -/
def solve_greedy (d : DataModel) (fuel : Nat) : Option (List (List Nat)) :=
  solveGreedyAux d fuel (List.range' 1 (d.time_matrix.length - 1)) []

/-- Sum of the demands of the stops on a route. -/
def demandSum (d : DataModel) (r : List Nat) : Int := (r.map (dem d)).sum

/-- Total travel time along the legs of the walk `cur :: r`. -/
def pathTravel (d : DataModel) (cur : Nat) : List Nat → Int
  | [] => 0
  | c :: cs => mat d cur c + pathTravel d c cs

/-- The cumulative elapsed time the specification ascribes to a greedy route:
travel along the route plus the configured `service_time` at every visited
stop, plus the travel time from the last visited stop back to the depot. -/
def specGreedyElapsed (d : DataModel) (r : List Nat) : Int :=
  pathTravel d d.depot r + d.service_time * r.length + mat d (r.getLastD d.depot) d.depot

/-- An instance with a single customer whose round trip
(`300 + 10 + 300 = 610` minutes) exceeds the 480-minute shift horizon even from
a freshly opened vehicle. -/
def instFar : DataModel :=
  { time_matrix := [[0, 300], [300, 0]]
    time_windows := [(0, 480), (0, 480)]
    demands := [0, 5]
    vehicle_capacities := [10]
    num_vehicles := 1
    depot := 0
    service_time := 10
    max_time_minutes := 480 }

/-- An instance where both customers are accepted by the greedy scan, yet the
route's elapsed time computed with the configured `service_time = 100` exceeds
the 140-minute horizon, because the code advances its clock by `travel + 10`. -/
def instSlack : DataModel :=
  { time_matrix := [[0, 10, 10], [10, 0, 10], [10, 10, 0]]
    time_windows := [(0, 480), (0, 480), (0, 480)]
    demands := [0, 1, 1]
    vehicle_capacities := [100]
    num_vehicles := 1
    depot := 0
    service_time := 100
    max_time_minutes := 140 }

/-- Transit cost registered by `RouteOptimizer.solve` (optimization.py lines
31-46): travel time plus the service time of the source node when the source
is not the depot (`data.get('service_time', 0)`, modelled as resolved into
`service_time`). -/
def transit (d : DataModel) (a b : Nat) : Int :=
  mat d a b + (if a ≠ d.depot then d.service_time else 0)

/-- `RouteOptimizer._extract_routes` (optimization.py lines 108-125) on one
vehicle's node walk: emit the visited nodes, dropping depot occurrences. -/
def extractRoute (d : DataModel) (path : List Nat) : List Nat :=
  path.filter (fun n => n != d.depot)

/-- Modelled from the spec: the constraint search itself is the external
OR-Tools library, absent from this repository; per spec §4.2 the solver
returns only solutions whose per-vehicle paths satisfy every constraint the
code registers (optimization.py lines 55-94).  `path` is one vehicle's node
walk starting at the depot and `times` the cumulative-time assignment:
cumulative times propagate along each arc by at least the transit cost
(waiting slack is permitted), each cumulative time is at most 1440 (the
dimension capacity), each visited non-depot node's cumulative time lies within
its `[earliest, latest]` window (`SetRange`), the vehicle leaves the depot no
earlier than the depot window opens, and the running load — demands
accumulated with zero slack from a zero start — never exceeds the vehicle's
capacity `cap`. -/
def CpFeasiblePath (d : DataModel) (cap : Int) (times : Nat → Int) (path : List Nat) : Prop :=
  path.head? = some d.depot ∧
  path.Chain' (fun a b => times a + transit d a b ≤ times b) ∧
  (∀ n ∈ path, times n ≤ 1440) ∧
  (∀ n ∈ path, n ≠ d.depot → (windowOf d n).1 ≤ times n ∧ times n ≤ (windowOf d n).2) ∧
  (windowOf d d.depot).1 ≤ times d.depot ∧
  ∀ k : Nat, demandSum d ((path.take k).filter (fun n => n != d.depot)) ≤ cap

/-- `WeatherState` (simulation.py lines 8-11); the travel-time factor is an
exact rational. -/
structure WeatherState where
  name : String
  travel_time_factor : ℚ
deriving DecidableEq

/-- `WeatherService.STATES['Ensolarado']`. -/
def sunnyState : WeatherState := ⟨"Ensolarado", 1⟩

/-- `WeatherService.STATES['Chuva Leve']`. -/
def rainState : WeatherState := ⟨"Chuva Leve", 5 / 4⟩

/-- `WeatherService.STATES['Tempestade Severa']`. -/
def stormState : WeatherState := ⟨"Tempestade Severa", 8 / 5⟩

/-- `WeatherService.__init__` (simulation.py lines 23-29): store the two
probabilities and the complementary sunny probability, failing when the
probabilities sum above 1 (the stored triple is returned on success). -/
def weatherServiceInit (storm_prob rain_prob : ℚ) : Except String (ℚ × ℚ × ℚ) :=
  if 1 - (storm_prob + rain_prob) < 0 then
    Except.error "A soma das probabilidades nao pode exceder 1.0"
  else Except.ok (storm_prob, rain_prob, 1 - (storm_prob + rain_prob))

/-- `WeatherService.get_current_weather` (simulation.py lines 31-41), with the
value `r` of `random.random()` made explicit. -/
def get_current_weather (storm_prob rain_prob : ℚ) (r : ℚ) : WeatherState :=
  if r < storm_prob then stormState
  else if r < storm_prob + rain_prob then rainState
  else sunnyState

/-- The `data_model` fields used by `LogisticsSimulator.drive`
(src/simulation.py), over exact rationals standing for Python floats. -/
structure SimData where
  time_matrix : List (List ℚ)
  time_windows : List (ℚ × ℚ)
  depot : Nat
  service_time : ℚ
  max_time_minutes : ℚ

/-- `data['time_matrix'][i][j]` in the simulator. -/
def matQ (d : SimData) (i j : Nat) : ℚ := (d.time_matrix.getD i []).getD j 0

/-- The `latest` component of `data['time_windows'][i]` in the simulator. -/
def latestQ (d : SimData) (i : Nat) : ℚ := (d.time_windows.getD i (0, 0)).2

/-- Python's `round(x, 2)`, modelled as exact rounding to the nearest multiple
of 1/100. -/
def round2 (q : ℚ) : ℚ := (round (q * 100) : ℤ) / 100

/-- `self.OVERTIME_RATE_PER_MIN = 2.5` (simulation.py line 55). -/
def OVERTIME_RATE_PER_MIN : ℚ := 5 / 2

/-- One row of the simulator's event log (simulation.py lines 79-88, 96-98,
115-124 and 132-134); `real`, `arrival`, `delay` and `cost` carry the
two-decimal rounding the code applies when logging. -/
structure Event where
  vehicle : Nat
  from_node : Nat
  to_node : Nat
  weather_name : String
  base : ℚ
  real : ℚ
  arrival : ℚ
  delay : ℚ
  cost : ℚ

/-- `LogisticsSimulator.drive` (simulation.py lines 57-134) for one vehicle:
`ws k` is the weather state drawn for the k-th leg (the code draws one fresh
state per leg from the `WeatherService`).  Each customer leg advances the
clock by the weather-scaled travel time, logs an event, compares the arrival
clock against the destination's `latest` window, accrues the exact unrounded
overtime cost into the ledger while logging the cost rounded to two decimals,
then waits out the service time; after the last customer the vehicle returns
to the depot and its arrival is compared against `max_time_minutes` instead. -/
def driveAux (d : SimData) (veh : Nat) (ws : Nat → WeatherState) :
    List Nat → Nat → Nat → ℚ → ℚ → List Event × ℚ
  | [], k, cur, t, total =>
    let w := ws k
    let base := matQ d cur d.depot
    let actual := base * w.travel_time_factor
    let arrival := t + actual
    let ev : Event :=
      { vehicle := veh, from_node := cur, to_node := d.depot, weather_name := w.name,
        base := base, real := round2 actual, arrival := round2 arrival,
        delay := round2 (actual - base),
        cost := if d.max_time_minutes < arrival then
            round2 ((arrival - d.max_time_minutes) * OVERTIME_RATE_PER_MIN) else 0 }
    ([ev],
      if d.max_time_minutes < arrival then
        total + (arrival - d.max_time_minutes) * OVERTIME_RATE_PER_MIN else total)
  | nxt :: rest, k, cur, t, total =>
    let w := ws k
    let base := matQ d cur nxt
    let actual := base * w.travel_time_factor
    let arrival := t + actual
    let bound := latestQ d nxt
    let ev : Event :=
      { vehicle := veh, from_node := cur, to_node := nxt, weather_name := w.name,
        base := base, real := round2 actual, arrival := round2 arrival,
        delay := round2 (actual - base),
        cost := if bound < arrival then
            round2 ((arrival - bound) * OVERTIME_RATE_PER_MIN) else 0 }
    let next := driveAux d veh ws rest (k + 1) nxt (arrival + d.service_time)
      (if bound < arrival then total + (arrival - bound) * OVERTIME_RATE_PER_MIN else total)
    (ev :: next.1, next.2)

/-- `LogisticsSimulator.drive` started as the code starts it: at the depot,
clock 0, ledger 0. -/
def drive (d : SimData) (veh : Nat) (route : List Nat) (ws : Nat → WeatherState) :
    List Event × ℚ :=
  driveAux d veh ws route 0 d.depot 0 0

/-- Specification-side recomputation of each leg's arrival clock and lateness
bound: one pair per customer leg, plus the final depot-return leg measured
against `max_time_minutes`. -/
def legStats (d : SimData) (ws : Nat → WeatherState) :
    List Nat → Nat → Nat → ℚ → List (ℚ × ℚ)
  | [], k, cur, t =>
    [(t + matQ d cur d.depot * (ws k).travel_time_factor, d.max_time_minutes)]
  | nxt :: rest, k, cur, t =>
    let arrival := t + matQ d cur nxt * (ws k).travel_time_factor
    (arrival, latestQ d nxt) :: legStats d ws rest (k + 1) nxt (arrival + d.service_time)

/-- Exact (unrounded) overtime cost of one leg, from its arrival and bound. -/
def overtimeOf (p : ℚ × ℚ) : ℚ :=
  if p.2 < p.1 then (p.1 - p.2) * OVERTIME_RATE_PER_MIN else 0

/-- Simulator instance where the only customer is reached within its window
and the depot return is within the shift: no overtime accrues. -/
def simOk : SimData :=
  { time_matrix := [[0, 10], [10, 0]]
    time_windows := [(0, 480), (0, 480)]
    depot := 0
    service_time := 10
    max_time_minutes := 480 }

/-- Simulator instance where the customer's window closes at `9.999`, so a
10-minute sunny leg is one thousandth of a minute late: the exact ledger gains
`(1/1000) * (5/2) = 1/400`, while the logged cost rounds to `0.00`. -/
def simTiny : SimData :=
  { time_matrix := [[0, 10], [10, 0]]
    time_windows := [(0, 480), (0, 9999 / 1000)]
    depot := 0
    service_time := 10
    max_time_minutes := 480 }

lemma solveGreedyAux_instFar (fuel : Nat) :
    ∀ routes, solveGreedyAux instFar fuel [1] routes = none := by
  induction fuel with
  | zero => intro routes; rfl
  | succ n ih =>
    intro routes
    have h : solveGreedyAux instFar (n + 1) [1] routes =
        solveGreedyAux instFar n [1] (routes ++ [[]]) := rfl
    rw [h]
    exact ih (routes ++ [[]])

/-- C1: on `instFar`, the single customer fails the fresh-vehicle time check,
so `solve_greedy` never removes it from the unvisited set: the `while unvisited`
loop appends empty routes forever and never terminates (no amount of fuel makes
the fueled embedding return a route list).  The claim's promised behaviour —
terminate and silently drop the customer — does not hold. -/
theorem greedy_unreachable_customer_nontermination :
    (¬ eligible instFar 0 0 0 1) ∧ ∀ fuel : Nat, solve_greedy instFar fuel = none :=
  ⟨by decide, fun fuel => solveGreedyAux_instFar fuel []⟩

/-- C2: on `instSlack` (configured `service_time = 100`, horizon 140),
`solve_greedy` returns the route `[1, 2]`, but the cumulative elapsed time
computed with the configured service duration plus the return leg is
`230 > 140`: the claimed depot-return guarantee fails because the code's clock
adds the literal `10` per stop instead of the configured service time. -/
theorem greedy_depot_return_bound_violated :
    solve_greedy instSlack 2 = some [[1, 2]] ∧
      specGreedyElapsed instSlack [1, 2] = 230 ∧
      instSlack.max_time_minutes = 140 ∧
      ¬ specGreedyElapsed instSlack [1, 2] ≤ instSlack.max_time_minutes := by
  refine ⟨rfl, by decide, rfl, by decide⟩

/-- Any `some` result of the candidate scan is an eligible node from the
scanned list (or from the accumulator), paired with its travel time from the
current node.  `S` abstracts the property carried by list membership. -/
lemma fnAux_invariant (d : DataModel) (load t : Int) (cur : Nat) (S : Nat → Prop) :
    ∀ (cs : List Nat) (acc : Option (Nat × Int)),
      (∀ c ∈ cs, S c) →
      (∀ p : Nat × Int, acc = some p → eligible d load t cur p.1 ∧ p.2 = mat d cur p.1 ∧ S p.1) →
      ∀ n md, findNearestAux d load t cur cs acc = some (n, md) →
        eligible d load t cur n ∧ md = mat d cur n ∧ S n := by
  intro cs
  induction cs with
  | nil =>
    intro acc _ hacc n md h
    simp only [findNearestAux] at h
    exact hacc (n, md) h
  | cons c cs ih =>
    intro acc hcs hacc n md h
    have hScs : ∀ x ∈ cs, S x := fun x hx => hcs x (List.mem_cons_of_mem _ hx)
    have hSc : S c := hcs c (List.mem_cons_self c cs)
    by_cases he : eligible d load t cur c
    · cases acc with
      | none =>
        simp only [findNearestAux, if_pos he] at h
        exact ih (some (c, mat d cur c)) hScs
          (by
            intro p hp
            cases hp
            exact ⟨he, rfl, hSc⟩) n md h
      | some p =>
        obtain ⟨n0, md0⟩ := p
        simp only [findNearestAux, if_pos he] at h
        by_cases hlt : mat d cur c < md0
        · rw [if_pos hlt] at h
          exact ih (some (c, mat d cur c)) hScs
            (by
              intro p hp
              cases hp
              exact ⟨he, rfl, hSc⟩) n md h
        · rw [if_neg hlt] at h
          exact ih (some (n0, md0)) hScs hacc n md h
    · cases acc with
      | none =>
        simp only [findNearestAux, if_neg he] at h
        exact ih none hScs hacc n md h
      | some p =>
        obtain ⟨n0, md0⟩ := p
        simp only [findNearestAux, if_neg he] at h
        exact ih (some (n0, md0)) hScs hacc n md h

/-- Specialization: a `some` result of the scan started with an empty
accumulator is an eligible member of the scanned list. -/
lemma fnAux_mem (d : DataModel) (load t : Int) (cur : Nat) (uv : List Nat) (n : Nat) (md : Int)
    (h : findNearestAux d load t cur uv none = some (n, md)) :
    eligible d load t cur n ∧ md = mat d cur n ∧ n ∈ uv :=
  fnAux_invariant d load t cur (· ∈ uv) uv none (fun _ hc => hc)
    (fun _ hp => Option.noConfusion hp) n md h

/-- Bookkeeping invariant of the inner greedy loop: the final route extends the
accumulator by some list `Δ` of newly accepted stops, the final load adds their
demands, the final clock adds their travel legs plus the literal 10 per stop,
and when at least one stop was accepted the final load passed the capacity
check. -/
lemma buildRoute_spec (d : DataModel) :
    ∀ (fuel : Nat) (uv r : List Nat) (load t : Int) (cur : Nat)
      (r' uv' : List Nat) (load' t' : Int),
      buildRoute d fuel uv r load t cur = (r', uv', load', t') →
      ∃ Δ, r' = r ++ Δ ∧ load' = load + demandSum d Δ ∧
        t' = t + pathTravel d cur Δ + 10 * Δ.length ∧
        (Δ ≠ [] → load' ≤ capacity0 d) := by
  intro fuel
  induction fuel with
  | zero =>
    intro uv r load t cur r' uv' load' t' h
    simp only [buildRoute, Prod.mk.injEq] at h
    obtain ⟨h1, _, h3, h4⟩ := h
    refine ⟨[], ?_, ?_, ?_, ?_⟩
    · simp [h1]
    · simp [demandSum, h3]
    · simp [pathTravel, h4]
    · intro hne; exact absurd rfl hne
  | succ fuel ih =>
    intro uv r load t cur r' uv' load' t' h
    rcases hfn : findNearestAux d load t cur uv none with _ | ⟨c, md⟩
    · rw [buildRoute, hfn] at h
      simp only [Prod.mk.injEq] at h
      obtain ⟨h1, _, h3, h4⟩ := h
      refine ⟨[], ?_, ?_, ?_, ?_⟩
      · simp [h1]
      · simp [demandSum, h3]
      · simp [pathTravel, h4]
      · intro hne; exact absurd rfl hne
    · rw [buildRoute, hfn] at h
      obtain ⟨helig, hmd, -⟩ := fnAux_mem d load t cur uv c md hfn
      obtain ⟨Δ', h1, h2, h3, h4⟩ := ih (uv.erase c) (r ++ [c]) (load + dem d c) (t + md + 10) c
        r' uv' load' t' h
      refine ⟨c :: Δ', ?_, ?_, ?_, ?_⟩
      · rw [h1]; simp
      · rw [h2]; simp [demandSum]; ring
      · rw [h3, hmd]; simp [pathTravel]; ring
      · intro _
        cases Δ' with
        | nil =>
          rw [h2]
          simpa [demandSum] using helig.1
        | cons x xs => exact h4 (by simp)

/-- Every route in a `some` result of the outer greedy loop either was already
in the accumulator or is the first component of a fresh-vehicle inner-loop run
(load 0, time 0, starting at the depot). -/
lemma solveGreedyAux_routes (d : DataModel) :
    ∀ (fuel : Nat) (uv : List Nat) (routes out : List (List Nat)),
      solveGreedyAux d fuel uv routes = some out →
      ∀ r ∈ out, r ∈ routes ∨
        ∃ (uv₀ uv₁ : List Nat) (load' t' : Int),
          buildRoute d uv₀.length uv₀ [] 0 0 d.depot = (r, uv₁, load', t') := by
  intro fuel
  induction fuel with
  | zero =>
    intro uv routes out h r hr
    by_cases huv : uv = []
    · simp only [solveGreedyAux, if_pos huv, Option.some.injEq] at h
      exact Or.inl (h ▸ hr)
    · simp only [solveGreedyAux, if_neg huv] at h
      exact Option.noConfusion h
  | succ fuel ih =>
    intro uv routes out h r hr
    by_cases huv : uv = []
    · simp only [solveGreedyAux, if_pos huv, Option.some.injEq] at h
      exact Or.inl (h ▸ hr)
    · rcases hbr : buildRoute d uv.length uv [] 0 0 d.depot with ⟨r0, uv', load', t'⟩
      rw [solveGreedyAux, if_neg huv, hbr] at h
      rcases ih uv' (routes ++ [r0]) out h r hr with hin | hex
      · rcases List.mem_append.mp hin with h1 | h2
        · exact Or.inl h1
        · cases List.mem_singleton.mp h2
          exact Or.inr ⟨uv, uv', load', t', hbr⟩
      · exact Or.inr hex

/-- A concrete feasible solution path of the modelled constraint-search
solver on `instSlack`: the vehicle leaves the depot at time 0 and reaches
customer 1 at time 10. -/
lemma instSlackCpFeasible : CpFeasiblePath instSlack 100 (fun n => 10 * n) [0, 1] := by
  refine ⟨rfl, ?_, ?_, ?_, ?_, ?_⟩
  · simp only [List.chain'_cons, List.chain'_singleton, and_true]
    decide
  · decide
  · decide
  · decide
  · intro k
    match k with
    | 0 => decide
    | 1 => decide
    | (n + 2) =>
      rw [List.take_of_length_le (by simp)]
      decide

/-- C3: every route returned by either strategy satisfies the capacity
invariant.  For `solve_greedy`: every route of a returned route list has total
demand at most `vehicle_capacities[0]` (a non-negative capacity covers the
empty route).  For the constraint-search strategy: every route extracted from
a feasible solution path of the modelled solver has total demand at most the
vehicle's capacity. -/
theorem routes_respect_vehicle_capacity :
    (∀ (d : DataModel) (fuel : Nat) (routes : List (List Nat)),
        solve_greedy d fuel = some routes → 0 ≤ capacity0 d →
        ∀ r ∈ routes, demandSum d r ≤ capacity0 d) ∧
    (∀ (d : DataModel) (cap : Int) (times : Nat → Int) (path : List Nat),
        CpFeasiblePath d cap times path → demandSum d (extractRoute d path) ≤ cap) := by
  constructor
  · intro d fuel routes h hcap r hr
    rcases solveGreedyAux_routes d fuel _ [] routes h r hr with hin | ⟨uv₀, uv₁, load', t', hbr⟩
    · exact absurd hin (List.not_mem_nil r)
    · obtain ⟨Δ, h1, h2, h3, h4⟩ :=
        buildRoute_spec d uv₀.length uv₀ [] 0 0 d.depot r uv₁ load' t' hbr
      rcases eq_or_ne Δ [] with hΔ | hΔ
      · rw [h1, hΔ]
        simpa [demandSum] using hcap
      · have hle := h4 hΔ
        rw [h2] at hle
        rw [h1]
        simpa using hle
  · intro d cap times path hf
    have h := hf.2.2.2.2.2 path.length
    rw [List.take_length] at h
    simpa [extractRoute] using h

/-- Witness for C3: the greedy half applied to `solve_greedy instSlack`'s
actual output, the constraint-search half applied to the concrete feasible
path `[0, 1]`. -/
theorem routes_respect_vehicle_capacity_witness :
    (∀ r ∈ [[1, 2]], demandSum instSlack r ≤ capacity0 instSlack) ∧
      demandSum instSlack (extractRoute instSlack [0, 1]) ≤ 100 :=
  ⟨routes_respect_vehicle_capacity.1 instSlack 2 [[1, 2]] rfl (by decide),
    routes_respect_vehicle_capacity.2 instSlack 100 (fun n => 10 * n) [0, 1] instSlackCpFeasible⟩

/-- C4: for every route extracted from a feasible solution path of the
modelled constraint-search solver, the cumulative arrival time at each
(necessarily non-depot) stop lies within that stop's `[earliest, latest]`
window. -/
theorem cp_routes_meet_time_windows :
    ∀ (d : DataModel) (cap : Int) (times : Nat → Int) (path : List Nat),
      CpFeasiblePath d cap times path →
      ∀ n ∈ extractRoute d path,
        (windowOf d n).1 ≤ times n ∧ times n ≤ (windowOf d n).2 := by
  intro d cap times path hf n hn
  simp only [extractRoute] at hn
  have hmem := List.mem_filter.mp hn
  exact hf.2.2.2.1 n hmem.1 (by simpa using hmem.2)

/-- Witness for C4: customer 1 on the concrete feasible path `[0, 1]` of
`instSlack` is served at time 10, inside its window `[0, 480]`. -/
theorem cp_routes_meet_time_windows_witness :
    (windowOf instSlack 1).1 ≤ 10 ∧ (10 : Int) ≤ (windowOf instSlack 1).2 := by
  have h := cp_routes_meet_time_windows instSlack 100 (fun n => 10 * n) [0, 1]
    instSlackCpFeasible 1 (by decide)
  simpa using h

/-- Behaviour of the candidate scan when an eligible incumbent is already
held: with a strictly increasing remaining list whose members all exceed the
incumbent's index, the final choice is eligible, carries its own travel time,
never has larger travel time than the incumbent, beats every eligible scanned
candidate, and on ties keeps the smaller index. -/
lemma fnAux_some_spec (d : DataModel) (load t : Int) (cur : Nat) :
    ∀ (cs : List Nat) (n0 : Nat) (md0 : Int),
      eligible d load t cur n0 → md0 = mat d cur n0 →
      (∀ c ∈ cs, n0 < c) → List.Sorted (· < ·) cs →
      ∀ n md, findNearestAux d load t cur cs (some (n0, md0)) = some (n, md) →
        eligible d load t cur n ∧ md = mat d cur n ∧ (n = n0 ∨ n ∈ cs) ∧ md ≤ md0 ∧
          (∀ c ∈ cs, eligible d load t cur c →
            md ≤ mat d cur c ∧ (mat d cur c = md → n ≤ c)) ∧
          (mat d cur n0 = md → n ≤ n0) := by
  intro cs
  induction cs with
  | nil =>
    intro n0 md0 h0 hd _ _ n md h
    simp only [findNearestAux, Option.some.injEq, Prod.mk.injEq] at h
    obtain ⟨h1, h2⟩ := h
    subst h1
    subst h2
    exact ⟨h0, hd, Or.inl rfl, le_refl _, by simp, fun _ => le_refl _⟩
  | cons c cs ih =>
    intro n0 md0 h0 hd hall hs n md h
    have hccs : ∀ x ∈ cs, c < x := (List.sorted_cons.mp hs).1
    have hs' : List.Sorted (· < ·) cs := (List.sorted_cons.mp hs).2
    have hallcs : ∀ x ∈ cs, n0 < x := fun x hx => hall x (List.mem_cons_of_mem _ hx)
    have hn0c : n0 < c := hall c (List.mem_cons_self c cs)
    by_cases he : eligible d load t cur c
    · simp only [findNearestAux, if_pos he] at h
      by_cases hlt : mat d cur c < md0
      · rw [if_pos hlt] at h
        obtain ⟨e1, e2, e3, e4, e5, e6⟩ := ih c (mat d cur c) he rfl hccs hs' n md h
        refine ⟨e1, e2, ?_, ?_, ?_, ?_⟩
        · rcases e3 with h' | h'
          · exact Or.inr (h' ▸ List.mem_cons_self c cs)
          · exact Or.inr (List.mem_cons_of_mem _ h')
        · exact le_trans e4 (le_of_lt hlt)
        · intro x hx hex
          rcases List.mem_cons.mp hx with h' | h'
          · subst h'
            exact ⟨e4, e6⟩
          · exact e5 x h' hex
        · intro heq
          exfalso
          have h5 : md < md0 := lt_of_le_of_lt e4 hlt
          rw [hd, heq] at h5
          exact lt_irrefl _ h5
      · rw [if_neg hlt] at h
        obtain ⟨e1, e2, e3, e4, e5, e6⟩ := ih n0 md0 h0 hd hallcs hs' n md h
        refine ⟨e1, e2, ?_, e4, ?_, e6⟩
        · rcases e3 with h' | h'
          · exact Or.inl h'
          · exact Or.inr (List.mem_cons_of_mem _ h')
        · intro x hx hex
          rcases List.mem_cons.mp hx with h' | h'
          · subst h'
            have hge : md0 ≤ mat d cur x := not_lt.mp hlt
            refine ⟨le_trans e4 hge, ?_⟩
            intro heq
            have h7 : md0 ≤ md := heq ▸ hge
            have h8 : mat d cur n0 = md := by
              rw [← hd]
              exact (le_antisymm e4 h7).symm
            exact le_trans (e6 h8) (le_of_lt hn0c)
          · exact e5 x h' hex
    · simp only [findNearestAux, if_neg he] at h
      obtain ⟨e1, e2, e3, e4, e5, e6⟩ := ih n0 md0 h0 hd hallcs hs' n md h
      refine ⟨e1, e2, ?_, e4, ?_, e6⟩
      · rcases e3 with h' | h'
        · exact Or.inl h'
        · exact Or.inr (List.mem_cons_of_mem _ h')
      · intro x hx hex
        rcases List.mem_cons.mp hx with h' | h'
        · subst h'
          exact absurd hex he
        · exact e5 x h' hex

/-- C8: at every selection step of `solve_greedy`, the node returned by the
candidate scan over the (increasingly ordered) unvisited list is an eligible
candidate of minimum travel time from the current node, and any other eligible
candidate achieving the same minimum travel time has a larger index: the
lowest-index minimizer is selected. -/
theorem greedy_nearest_lowest_index_selection :
    ∀ (d : DataModel) (load t : Int) (cur : Nat) (cs : List Nat),
      List.Sorted (· < ·) cs →
      ∀ n md, findNearestAux d load t cur cs none = some (n, md) →
        n ∈ cs ∧ eligible d load t cur n ∧ md = mat d cur n ∧
          ∀ c ∈ cs, eligible d load t cur c →
            mat d cur n ≤ mat d cur c ∧ (mat d cur c = mat d cur n → n ≤ c) := by
  intro d load t cur cs
  induction cs with
  | nil =>
    intro _ n md h
    simp only [findNearestAux] at h
    exact Option.noConfusion h
  | cons c cs ih =>
    intro hs n md h
    have hccs : ∀ x ∈ cs, c < x := (List.sorted_cons.mp hs).1
    have hs' : List.Sorted (· < ·) cs := (List.sorted_cons.mp hs).2
    by_cases he : eligible d load t cur c
    · simp only [findNearestAux, if_pos he] at h
      obtain ⟨e1, e2, e3, e4, e5, e6⟩ :=
        fnAux_some_spec d load t cur cs c (mat d cur c) he rfl hccs hs' n md h
      subst e2
      refine ⟨?_, e1, rfl, ?_⟩
      · rcases e3 with h' | h'
        · exact h' ▸ List.mem_cons_self c cs
        · exact List.mem_cons_of_mem _ h'
      · intro x hx hex
        rcases List.mem_cons.mp hx with h' | h'
        · subst h'
          exact ⟨e4, e6⟩
        · exact e5 x h' hex
    · simp only [findNearestAux, if_neg he] at h
      obtain ⟨m1, m2, m3, m4⟩ := ih hs' n md h
      subst m3
      refine ⟨List.mem_cons_of_mem _ m1, m2, rfl, ?_⟩
      intro x hx hex
      rcases List.mem_cons.mp hx with h' | h'
      · subst h'
        exact absurd hex he
      · exact m4 x h' hex

/-- Witness for C8 on `instSlack`: customers 1 and 2 are both eligible at
travel time 10 from the depot, and the scan returns the lower index 1. -/
theorem greedy_nearest_lowest_index_selection_witness :
    (1 : Nat) ∈ [1, 2] ∧ eligible instSlack 0 0 0 1 ∧ (10 : Int) = mat instSlack 0 1 ∧
      ∀ c ∈ [1, 2], eligible instSlack 0 0 0 c →
        mat instSlack 0 1 ≤ mat instSlack 0 c ∧
          (mat instSlack 0 c = mat instSlack 0 1 → 1 ≤ c) :=
  greedy_nearest_lowest_index_selection instSlack 0 0 0 [1, 2] (by decide) 1 10 rfl

/-- C9: the clock of `solve_greedy`'s inner loop, started fresh, always equals
the travel along the accepted stops plus the literal constant 10 per stop,
independent of the configured `service_time`; the configured `service_time`
appears (exactly as the code writes it) only in the eligibility test; and once
at least one stop is accepted and `service_time ≠ 10`, the code's clock
differs from the elapsed time the eligibility model assumes. -/
theorem greedy_clock_adds_constant_ten :
    (∀ (d : DataModel) (fuel : Nat) (uv r' uv' : List Nat) (load' t' : Int),
        buildRoute d fuel uv [] 0 0 d.depot = (r', uv', load', t') →
        t' = pathTravel d d.depot r' + 10 * r'.length) ∧
    (∀ (d : DataModel) (load t : Int) (cur c : Nat),
        eligible d load t cur c ↔
          load + dem d c ≤ capacity0 d ∧
            t + mat d cur c + d.service_time + mat d c d.depot ≤ d.max_time_minutes) ∧
    (∀ (d : DataModel) (fuel : Nat) (uv r' uv' : List Nat) (load' t' : Int),
        buildRoute d fuel uv [] 0 0 d.depot = (r', uv', load', t') →
        d.service_time ≠ 10 → r' ≠ [] →
        t' ≠ pathTravel d d.depot r' + d.service_time * r'.length) := by
  refine ⟨?_, fun d load t cur c => Iff.rfl, ?_⟩
  · intro d fuel uv r' uv' load' t' h
    obtain ⟨Δ, h1, h2, h3, h4⟩ := buildRoute_spec d fuel uv [] 0 0 d.depot r' uv' load' t' h
    simp only [List.nil_append] at h1
    subst h1
    rw [h3]
    ring
  · intro d fuel uv r' uv' load' t' h hst hne heq
    obtain ⟨Δ, h1, h2, h3, h4⟩ := buildRoute_spec d fuel uv [] 0 0 d.depot r' uv' load' t' h
    simp only [List.nil_append] at h1
    subst h1
    rw [h3] at heq
    have hL : ((r'.length : Int)) ≠ 0 := by
      exact_mod_cast (List.length_pos.mpr hne).ne'
    have h10 : (10 : Int) * r'.length = d.service_time * r'.length := by linarith
    exact hst (mul_right_cancel₀ hL h10).symm

/-- Witness for C9 on `instSlack` (`service_time = 100`): the inner loop
accepts `[1, 2]` and finishes with clock 40 = travel 20 + 2·10, which differs
from the 220 = travel 20 + 2·100 the eligibility model assumes. -/
theorem greedy_clock_adds_constant_ten_witness :
    (40 : Int) = pathTravel instSlack instSlack.depot [1, 2] +
        10 * (([1, 2] : List Nat).length : Int) ∧
      (40 : Int) ≠ pathTravel instSlack instSlack.depot [1, 2] +
        instSlack.service_time * (([1, 2] : List Nat).length : Int) :=
  ⟨greedy_clock_adds_constant_ten.1 instSlack 2 [1, 2] [1, 2] [] 2 40 rfl,
    greedy_clock_adds_constant_ten.2.2 instSlack 2 [1, 2] [1, 2] [] 2 40 rfl
      (by decide) (by simp)⟩

/-- The exact per-leg overtime cost is never negative. -/
lemma overtimeOf_nonneg (p : ℚ × ℚ) : 0 ≤ overtimeOf p := by
  unfold overtimeOf
  split_ifs with h
  · have h1 : 0 ≤ p.1 - p.2 := sub_nonneg.mpr (le_of_lt h)
    have h2 : (0 : ℚ) ≤ OVERTIME_RATE_PER_MIN := by norm_num [OVERTIME_RATE_PER_MIN]
    exact mul_nonneg h1 h2
  · exact le_refl 0

/-- The ledger returned by the driving loop is the incoming ledger plus the
exact overtime of each remaining leg. -/
lemma driveAux_total (d : SimData) (veh : Nat) (ws : Nat → WeatherState) :
    ∀ (route : List Nat) (k cur : Nat) (t total : ℚ),
      (driveAux d veh ws route k cur t total).2 =
        total + ((legStats d ws route k cur t).map overtimeOf).sum := by
  intro route
  induction route with
  | nil =>
    intro k cur t total
    simp only [driveAux, legStats, List.map_cons, List.map_nil, List.sum_cons, List.sum_nil,
      overtimeOf]
    by_cases h : d.max_time_minutes < t + matQ d cur d.depot * (ws k).travel_time_factor
    · rw [if_pos h, if_pos h]
      ring
    · rw [if_neg h, if_neg h]
      ring
  | cons nxt rest ih =>
    intro k cur t total
    simp only [driveAux, legStats, List.map_cons, List.sum_cons]
    rw [ih]
    by_cases h : latestQ d nxt < t + matQ d cur nxt * (ws k).travel_time_factor
    · rw [if_pos h]
      simp only [overtimeOf, if_pos h]
      ring
    · rw [if_neg h]
      simp only [overtimeOf, if_neg h]
      ring

/-- The costs logged on the events are, leg by leg, the rounded exact
overtime costs (zero when the leg is on time). -/
lemma driveAux_costs (d : SimData) (veh : Nat) (ws : Nat → WeatherState) :
    ∀ (route : List Nat) (k cur : Nat) (t total : ℚ),
      ((driveAux d veh ws route k cur t total).1).map Event.cost =
        (legStats d ws route k cur t).map
          (fun p => if p.2 < p.1 then round2 ((p.1 - p.2) * OVERTIME_RATE_PER_MIN) else 0) := by
  intro route
  induction route with
  | nil =>
    intro k cur t total
    simp only [driveAux, legStats, List.map_cons, List.map_nil]
  | cons nxt rest ih =>
    intro k cur t total
    simp only [driveAux, legStats, List.map_cons]
    rw [ih]

/-- C5: for every run of `drive`, the cost logged on each event is the
two-decimal rounding of `(arrival − bound) × OVERTIME_RATE` exactly when the
arrival clock exceeds the leg's bound (the destination's `latest` window for
customer legs, `max_time_minutes` for the final depot return) and zero
otherwise; the ledger `total_overtime_cost` is the sum of the exact per-leg
overtime costs, is non-negative, and is non-decreasing in the incoming ledger;
and a run whose weather factors are all 1.0 and whose arrivals are all within
their bounds accrues zero total overtime cost. -/
theorem simulator_overtime_accounting :
    ∀ (d : SimData) (veh : Nat) (route : List Nat) (ws : Nat → WeatherState),
      ((drive d veh route ws).1.map Event.cost =
          (legStats d ws route 0 d.depot 0).map
            (fun p => if p.2 < p.1 then round2 ((p.1 - p.2) * OVERTIME_RATE_PER_MIN) else 0)) ∧
      (drive d veh route ws).2 = ((legStats d ws route 0 d.depot 0).map overtimeOf).sum ∧
      0 ≤ (drive d veh route ws).2 ∧
      (∀ (k cur : Nat) (t total : ℚ), total ≤ (driveAux d veh ws route k cur t total).2) ∧
      ((∀ k, (ws k).travel_time_factor = 1) →
        (∀ p ∈ legStats d ws route 0 d.depot 0, p.1 ≤ p.2) →
        (drive d veh route ws).2 = 0) := by
  intro d veh route ws
  have htot : ∀ (k cur : Nat) (t total : ℚ),
      (driveAux d veh ws route k cur t total).2 =
        total + ((legStats d ws route k cur t).map overtimeOf).sum :=
    fun k cur t total => driveAux_total d veh ws route k cur t total
  have hsum : ∀ (k cur : Nat) (t : ℚ),
      0 ≤ ((legStats d ws route k cur t).map overtimeOf).sum := by
    intro k cur t
    apply List.sum_nonneg
    intro x hx
    obtain ⟨p, -, rfl⟩ := List.mem_map.mp hx
    exact overtimeOf_nonneg p
  refine ⟨driveAux_costs d veh ws route 0 d.depot 0 0, ?_, ?_, ?_, ?_⟩
  · rw [drive, htot, zero_add]
  · rw [drive, htot, zero_add]
    exact hsum 0 d.depot 0
  · intro k cur t total
    rw [htot]
    have := hsum k cur t
    linarith
  · intro _ hin
    rw [drive, htot, zero_add]
    apply List.sum_eq_zero
    intro x hx
    obtain ⟨p, hp, rfl⟩ := List.mem_map.mp hx
    have hle := hin p hp
    simp [overtimeOf, not_lt.mpr hle]

/-- The two legs of the `simOk` sunny run: arrival 10 at customer 1
(window closes 480), arrival 30 back at the depot (shift ends 480). -/
lemma legStats_simOk :
    legStats simOk (fun _ => sunnyState) [1] 0 simOk.depot 0 = [(10, 480), (30, 480)] := by
  norm_num [legStats, matQ, latestQ, simOk, sunnyState]

/-- Witness for C5: on `simOk` with the weather forced sunny, every arrival is
within its bound and the run accrues zero overtime. -/
theorem simulator_overtime_accounting_witness :
    (∀ p ∈ legStats simOk (fun _ => sunnyState) [1] 0 simOk.depot 0, p.1 ≤ p.2) ∧
      (drive simOk 0 [1] (fun _ => sunnyState)).2 = 0 := by
  have hin : ∀ p ∈ legStats simOk (fun _ => sunnyState) [1] 0 simOk.depot 0, p.1 ≤ p.2 := by
    rw [legStats_simOk]
    intro p hp
    rcases List.mem_cons.mp hp with h | h
    · subst h; norm_num
    · rw [List.mem_singleton.mp h]; norm_num
  exact ⟨hin,
    (simulator_overtime_accounting simOk 0 [1] (fun _ => sunnyState)).2.2.2.2
      (fun _ => rfl) hin⟩

/-- C6: the weather draw follows cumulative thresholds in first-match order —
storm when `r < storm_prob`, else light rain when `r < storm_prob +
rain_prob`, else sunny — so for non-negative probabilities the three outcomes
are mutually exclusive, exhaustive, and deterministic in `r`. -/
theorem weather_draw_partition :
    ∀ storm_prob rain_prob r : ℚ, 0 ≤ storm_prob → 0 ≤ rain_prob →
      (get_current_weather storm_prob rain_prob r = stormState ↔ r < storm_prob) ∧
      (get_current_weather storm_prob rain_prob r = rainState ↔
        storm_prob ≤ r ∧ r < storm_prob + rain_prob) ∧
      (get_current_weather storm_prob rain_prob r = sunnyState ↔
        storm_prob + rain_prob ≤ r) ∧
      (get_current_weather storm_prob rain_prob r = stormState ∨
        get_current_weather storm_prob rain_prob r = rainState ∨
        get_current_weather storm_prob rain_prob r = sunnyState) := by
  intro s rn r _ hr
  have hsr : stormState ≠ rainState := by decide
  have hss : stormState ≠ sunnyState := by decide
  have hrs : rainState ≠ sunnyState := by decide
  unfold get_current_weather
  by_cases h1 : r < s
  · rw [if_pos h1]
    refine ⟨⟨fun _ => h1, fun _ => rfl⟩, ⟨fun hEq => absurd hEq hsr, ?_⟩,
      ⟨fun hEq => absurd hEq hss, ?_⟩, Or.inl rfl⟩
    · rintro ⟨hle, -⟩
      exact absurd h1 (not_lt.mpr hle)
    · intro hle
      exact absurd (lt_of_lt_of_le h1 (le_add_of_nonneg_right hr)) (not_lt.mpr hle)
  · by_cases h2 : r < s + rn
    · rw [if_neg h1, if_pos h2]
      refine ⟨⟨fun hEq => absurd hEq (Ne.symm hsr), fun hlt => absurd hlt h1⟩,
        ⟨fun _ => ⟨not_lt.mp h1, h2⟩, fun _ => rfl⟩,
        ⟨fun hEq => absurd hEq hrs, fun hle => absurd h2 (not_lt.mpr hle)⟩,
        Or.inr (Or.inl rfl)⟩
    · rw [if_neg h1, if_neg h2]
      refine ⟨⟨fun hEq => absurd hEq (Ne.symm hss), fun hlt => absurd hlt h1⟩,
        ⟨fun hEq => absurd hEq (Ne.symm hrs), ?_⟩,
        ⟨fun _ => not_lt.mp h2, fun _ => rfl⟩,
        Or.inr (Or.inr rfl)⟩
      rintro ⟨-, hlt⟩
      exact absurd hlt h2

/-- Witness for C6 with `storm_prob = 0.1`, `rain_prob = 0.2`: the boundary
draw `r = 0.1` deterministically yields light rain (first-match order), and
`r = 0.3` yields sunny. -/
theorem weather_draw_partition_witness :
    get_current_weather (1 / 10) (1 / 5) (1 / 10) = rainState ∧
      get_current_weather (1 / 10) (1 / 5) (3 / 10) = sunnyState :=
  ⟨(weather_draw_partition (1 / 10) (1 / 5) (1 / 10) (by norm_num) (by norm_num)).2.1.mpr
      (by norm_num),
    (weather_draw_partition (1 / 10) (1 / 5) (3 / 10) (by norm_num) (by norm_num)).2.2.1.mpr
      (by norm_num)⟩

/-- C7: constructing the weather service fails exactly when
`storm_prob + rain_prob > 1`, and on success it stores the two probabilities
unchanged together with the complementary sunny probability — nothing is
clamped. -/
theorem weather_service_construction :
    ∀ storm_prob rain_prob : ℚ,
      ((∃ msg, weatherServiceInit storm_prob rain_prob = Except.error msg) ↔
        1 < storm_prob + rain_prob) ∧
      (storm_prob + rain_prob ≤ 1 →
        weatherServiceInit storm_prob rain_prob =
          Except.ok (storm_prob, rain_prob, 1 - (storm_prob + rain_prob))) := by
  intro s rn
  unfold weatherServiceInit
  by_cases h : 1 - (s + rn) < 0
  · have h1 : 1 < s + rn := by linarith
    rw [if_pos h]
    exact ⟨⟨fun _ => h1, fun _ => ⟨_, rfl⟩⟩, fun hle => absurd h1 (not_lt.mpr hle)⟩
  · have h1 : ¬ 1 < s + rn := fun hgt => h (by linarith)
    rw [if_neg h]
    refine ⟨⟨?_, fun hgt => absurd hgt h1⟩, fun _ => rfl⟩
    rintro ⟨msg, hmsg⟩
    exact Except.noConfusion hmsg

/-- Witness for C7: probabilities summing to 3/4 are stored unchanged, and
probabilities summing to 6/5 make construction fail. -/
theorem weather_service_construction_witness :
    weatherServiceInit (1 / 2) (1 / 4) = Except.ok (1 / 2, 1 / 4, 1 - (1 / 2 + 1 / 4)) ∧
      ∃ msg, weatherServiceInit (3 / 5) (3 / 5) = Except.error msg :=
  ⟨(weather_service_construction (1 / 2) (1 / 4)).2 (by norm_num),
    (weather_service_construction (3 / 5) (3 / 5)).1.mpr (by norm_num)⟩

/-- C10: on `simTiny` (sunny weather forced) the ledger accrues the exact cost
`1/400 = 0.0025` for the one-thousandth-of-a-minute lateness, while every
logged event's cost rounds to `0.00`: the run's `total_overtime_cost` differs
from the sum of the per-event overtime costs in the returned log. -/
theorem ledger_vs_logged_overtime_mismatch :
    (drive simTiny 0 [1] (fun _ => sunnyState)).2 = 1 / 400 ∧
      ((drive simTiny 0 [1] (fun _ => sunnyState)).1.map Event.cost).sum = 0 ∧
      (drive simTiny 0 [1] (fun _ => sunnyState)).2 ≠
        ((drive simTiny 0 [1] (fun _ => sunnyState)).1.map Event.cost).sum := by
  have hleg : legStats simTiny (fun _ => sunnyState) [1] 0 simTiny.depot 0 =
      [(10, 9999 / 1000), (30, 480)] := by
    norm_num [legStats, matQ, latestQ, simTiny, sunnyState]
  have hround : round2 (((10 : ℚ) - 9999 / 1000) * OVERTIME_RATE_PER_MIN) = 0 := by
    have h : ((10 : ℚ) - 9999 / 1000) * OVERTIME_RATE_PER_MIN = 1 / 400 := by
      norm_num [OVERTIME_RATE_PER_MIN]
    rw [h]
    unfold round2
    have h2 : ((1 : ℚ) / 400) * 100 = 1 / 4 := by norm_num
    rw [h2, round_eq]
    have h3 : ⌊(1 : ℚ) / 4 + 1 / 2⌋ = 0 := by
      rw [Int.floor_eq_iff]
      norm_num
    rw [h3]
    norm_num
  have h1 : (drive simTiny 0 [1] (fun _ => sunnyState)).2 = 1 / 400 := by
    rw [drive, driveAux_total, zero_add, hleg]
    simp only [List.map_cons, List.map_nil, List.sum_cons, List.sum_nil, overtimeOf]
    rw [if_pos (by norm_num), if_neg (by norm_num)]
    norm_num [OVERTIME_RATE_PER_MIN]
  have h2 : ((drive simTiny 0 [1] (fun _ => sunnyState)).1.map Event.cost).sum = 0 := by
    rw [drive, driveAux_costs, hleg]
    simp only [List.map_cons, List.map_nil, List.sum_cons, List.sum_nil]
    rw [if_pos (by norm_num), if_neg (by norm_num)]
    rw [hround]
    norm_num
  refine ⟨h1, h2, ?_⟩
  rw [h1, h2]
  norm_num

end RRDSS
